import Mathlib

/-!
Verification of the Mandelbrot fractal viewer (`src/main.rs`).

The floating-point (`f64`/`f32`) arithmetic of the source is embedded as exact
real arithmetic (`ℝ`, `ℂ`).  Rust's `as u32` / `as u8` numeric casts
(truncation toward zero, saturating, negative inputs mapped to 0) are embedded
as `min bound ⌊x⌋₊`.  `Option<f32>` becomes `Option ℝ`; the `Bgra<u8>` pixel
becomes a four-field structure of naturals.
-/

set_option maxHeartbeats 1000000

noncomputable section

namespace Fractals

/-- Pixel color, channel order B, G, R, A as in `image::Bgra`. -/
structure Bgra where
  b : ℕ
  g : ℕ
  r : ℕ
  a : ℕ
deriving DecidableEq

/-- `Complex::new(x, y)` from `num_complex`. -/
def cplx (x y : ℝ) : ℂ := ⟨x, y⟩

@[simp] lemma cplx_re (x y : ℝ) : (cplx x y).re = x := rfl

@[simp] lemma cplx_im (x y : ℝ) : (cplx x y).im = y := rfl

@[simp] lemma cplx_zero : cplx 0 0 = 0 := Complex.ext rfl rfl

/-- `const NUM_COLORS: u32 = 2048;` -/
def NUM_COLORS : ℕ := 2048

/-- The Mandelbrot orbit of `c`: `zIter c 0 = 0`, `zIter c (k+1) = zIter c k ^ 2 + c`.
This is the value of the loop variable `z` of `test_number` after `k` iterations. -/
def zIter (c : ℂ) : ℕ → ℂ
  | 0 => 0
  | k + 1 => zIter c k * zIter c k + c

/-- The loop of `test_number`: `fuel` remaining iterations, `i` the 0-based loop
counter, `z` the current iterate.  Each pass computes `z = z * z + c`, then, if
`z.norm() >= 16.0`, returns `Some(i as f32 + 1.0 - z.norm().log2().ln())`
(note the order: base-2 log of the norm first, then the natural log). -/
def testGo (c : ℂ) : ℕ → ℕ → ℂ → Option ℝ
  | 0, _, _ => none
  | fuel + 1, i, z =>
    if 16 ≤ Complex.abs (z * z + c) then
      some ((i : ℝ) + 1 - Real.log (Real.logb 2 (Complex.abs (z * z + c))))
    else
      testGo c fuel (i + 1) (z * z + c)

/-- `fn test_number(c: Complex<f64>, n: u32) -> Option<f32>` -/
def test_number (c : ℂ) (n : ℕ) : Option ℝ := testGo c n 0 0

/-- Rust `as u8` on a float: truncation toward zero, saturating at `[0, 255]`.
(For the inputs arising here the value is nonnegative, so truncation is `⌊·⌋₊`.) -/
def f32_as_u8 (x : ℝ) : ℕ := min 255 ⌊x⌋₊

/-- Rust `as u32` on a float: truncation toward zero, saturating at
`[0, 2^32 - 1]`; negative inputs give `0` (as does `⌊·⌋₊`). -/
def f32_as_u32 (x : ℝ) : ℕ := min (2 ^ 32 - 1) ⌊x⌋₊

/-- `fn color_palette(val: Option<f32>, n: u32) -> Bgra<u8>`.
(`Real.sqrt` of a negative is `0` where `f32::sqrt` would be NaN; no claim
below evaluates the palette on a negative count.) -/
def color_palette (val : Option ℝ) (n : ℕ) : Bgra :=
  match val with
  | none => ⟨0, 0, 0, 255⟩
  | some val =>
    let fval := val / (n : ℝ)
    let fval := Real.sqrt fval
    let pi := (3.14159265 : ℝ)
    let r := f32_as_u8 ((Real.sin (pi / 2 * fval)) ^ 2 * 255)
    let g := f32_as_u8 ((Real.sin (3 * pi / 2 * fval)) ^ 2 * 255)
    let b := f32_as_u8 ((Real.sin (7 * pi / 2 * fval)) ^ 2 * 255)
    ⟨b, g, r, 255⟩

/-- `struct ViewState` -/
@[ext]
structure ViewState where
  center : ℂ
  scale : ℝ
  width : ℕ
  height : ℕ

/-- `ViewState::xy_to_point` -/
def ViewState.xy_to_point (s : ViewState) (x y : ℕ) : ℂ :=
  let greater_dim : ℝ := ((max s.width s.height : ℕ) : ℝ)
  let wratio := (s.width : ℝ) / greater_dim
  let hratio := (s.height : ℝ) / greater_dim
  let px := ((x : ℝ) / greater_dim - 0.5 * wratio) * s.scale
  let py := (0.5 * hratio - (y : ℝ) / greater_dim) * s.scale
  s.center + cplx px py

/-- `ViewState::generate`: the row-major `width × height` buffer, pixel `(x, y)`
mapped through `xy_to_point`, `test_number`, `color_palette`.  The `rayon`
per-pixel parallel fan-out writes each pixel from its own pure computation, so
the buffer is this deterministic nested list. -/
def ViewState.generate (s : ViewState) : List (List Bgra) :=
  (List.range s.height).map fun y =>
    (List.range s.width).map fun x =>
      color_palette (test_number (s.xy_to_point x y) NUM_COLORS) NUM_COLORS

/-- `struct AppState` -/
structure AppState where
  view_state : ViewState
  image : List (List Bgra)
  cursor : ℝ × ℝ
  panning : Option (ℝ × ℝ)

/-- `enum Message` -/
inductive Message where
  | WindowResize (width height : ℕ)
  | MousePress
  | MouseRelease
  | MouseMove (x y : ℝ)
  | MouseScroll (delta : ℝ)

/-- `AppState::new`: initial view state `center = (-0.5, 0)`, `scale = 4`,
`width = height = 10`, freshly generated image, cursor at the origin, no pan. -/
def AppState.new : AppState :=
  let view_state : ViewState := ⟨cplx (-0.5) 0, 4, 10, 10⟩
  ⟨view_state, view_state.generate, (0, 0), none⟩

/-- `AppState::update` (the `regenerate` call inlined: the stored image is
replaced by `generate` of the new view state whenever the source regenerates). -/
def AppState.update (s : AppState) (m : Message) : AppState :=
  match m with
  | .WindowResize width height =>
    let vs := { s.view_state with width := width, height := height }
    { s with view_state := vs, image := vs.generate }
  | .MousePress => { s with panning := some s.cursor }
  | .MouseRelease =>
    match s.panning with
    | some (old_x, old_y) =>
      let x := s.cursor.1
      let y := s.cursor.2
      let max_dim : ℝ := ((max s.view_state.width s.view_state.height : ℕ) : ℝ)
      let dx := x - old_x
      let dy := y - old_y
      let pan := cplx (-dx / max_dim * s.view_state.scale) (dy / max_dim * s.view_state.scale)
      let vs := { s.view_state with center := s.view_state.center + pan }
      { s with view_state := vs, panning := none, image := vs.generate }
    | none => { s with panning := none }
  | .MouseMove x y => { s with cursor := (x, y) }
  | .MouseScroll delta =>
    let factor := Real.exp delta
    let point_under_cursor :=
      s.view_state.xy_to_point (f32_as_u32 s.cursor.1) (f32_as_u32 s.cursor.2)
    let center_diff := s.view_state.center - point_under_cursor
    let vs := { s.view_state with
                scale := s.view_state.scale / factor,
                center := point_under_cursor +
                  cplx (center_diff.re / factor) (center_diff.im / factor) }
    { s with view_state := vs, image := vs.generate }

/-! ### Helper lemmas about the escape loop -/

lemma zIter_succ (c : ℂ) (k : ℕ) : zIter c (k + 1) = zIter c k * zIter c k + c := rfl

/-- The orbit of `0` is constantly `0`, so the loop never escapes. -/
lemma testGo_zero_none : ∀ fuel i : ℕ, testGo 0 fuel i 0 = none := by
  intro fuel
  induction fuel with
  | zero => intro i; rfl
  | succ fuel ih =>
    intro i
    have h0 : ((0 : ℂ) * 0 + 0) = 0 := by ring
    simp only [testGo, h0, map_zero]
    rw [if_neg (by norm_num)]
    exact ih (i + 1)

/-- A point whose very first iterate already has norm at least 16 escapes at
loop counter 0 with the code's smoothed count. -/
lemma test_number_escape_first (c : ℂ) (n : ℕ) (hn : 0 < n) (h : 16 ≤ Complex.abs c) :
    test_number c n = some (1 - Real.log (Real.logb 2 (Complex.abs c))) := by
  unfold test_number
  obtain ⟨m, rfl⟩ : ∃ m, n = m + 1 := ⟨n - 1, by omega⟩
  have h0 : ((0 : ℂ) * 0 + c) = c := by ring
  simp only [testGo, h0]
  rw [if_pos h]
  norm_num

/-- If the orbit first reaches norm `≥ 16` at step `k + 1` and the budget
reaches that far, the loop reports the smoothed count of step `k`. -/
lemma testGo_escape_at (c : ℂ) (k : ℕ) (hesc : 16 ≤ Complex.abs (zIter c (k + 1))) :
    ∀ fuel i, k < i + fuel → i ≤ k →
      (∀ j, i ≤ j → j < k → Complex.abs (zIter c (j + 1)) < 16) →
      testGo c fuel i (zIter c i) =
        some ((k : ℝ) + 1 - Real.log (Real.logb 2 (Complex.abs (zIter c (k + 1))))) := by
  intro fuel
  induction fuel with
  | zero => intro i h1 h2 _; omega
  | succ fuel ih =>
    intro i h1 h2 h3
    simp only [testGo]
    rw [← zIter_succ]
    rcases eq_or_lt_of_le h2 with heq | hlt
    · subst heq
      rw [if_pos hesc]
    · have hsafe : Complex.abs (zIter c (i + 1)) < 16 := h3 i le_rfl hlt
      rw [if_neg (not_le.2 hsafe)]
      exact ih (i + 1) (by omega) (by omega) (fun j hj1 hj2 => h3 j (by omega) hj2)

/-- Conversely, every `some` answer of the loop is the smoothed count of some
escaping step within the budget. -/
lemma testGo_some (c : ℂ) :
    ∀ fuel i (v : ℝ), testGo c fuel i (zIter c i) = some v →
      ∃ k, i ≤ k ∧ k < i + fuel ∧ 16 ≤ Complex.abs (zIter c (k + 1)) ∧
        v = (k : ℝ) + 1 - Real.log (Real.logb 2 (Complex.abs (zIter c (k + 1)))) := by
  intro fuel
  induction fuel with
  | zero => intro i v h; simp [testGo] at h
  | succ fuel ih =>
    intro i v h
    simp only [testGo] at h
    rw [← zIter_succ] at h
    by_cases h16 : 16 ≤ Complex.abs (zIter c (i + 1))
    · rw [if_pos h16] at h
      refine ⟨i, le_rfl, by omega, h16, ?_⟩
      exact (Option.some_injective _ h).symm
    · rw [if_neg h16] at h
      obtain ⟨k, hk1, hk2, hk3, hk4⟩ := ih (i + 1) v h
      exact ⟨k, by omega, by omega, hk3, hk4⟩

/-! ### Numeric helpers: `logb 2` at powers of two, bounds on `log (log 2)` -/

lemma log_two_ne_zero : Real.log 2 ≠ 0 :=
  ne_of_gt (Real.log_pos (by norm_num))

lemma logb_two_sixteen : Real.logb 2 16 = 4 := by
  rw [show (16 : ℝ) = 2 ^ (4 : ℕ) by norm_num, Real.logb, Real.log_pow]
  field_simp

lemma logb_two_65536 : Real.logb 2 65536 = 16 := by
  rw [show (65536 : ℝ) = 2 ^ (16 : ℕ) by norm_num, Real.logb, Real.log_pow]
  field_simp

lemma log_65536 : Real.log 65536 = 16 * Real.log 2 := by
  rw [show (65536 : ℝ) = 2 ^ (16 : ℕ) by norm_num, Real.log_pow]
  norm_num

lemma log_sixteen : Real.log 16 = 4 * Real.log 2 := by
  rw [show (16 : ℝ) = 2 ^ (4 : ℕ) by norm_num, Real.log_pow]
  norm_num

/-- Lower bound `log (log 2) ≥ 1 - (log 2)⁻¹`. -/
lemma log_log_two_lower : 1 - (Real.log 2)⁻¹ ≤ Real.log (Real.log 2) := by
  have hpos : 0 < Real.log 2 := Real.log_pos (by norm_num)
  have h := Real.log_le_sub_one_of_pos (inv_pos.2 hpos)
  rw [Real.log_inv] at h
  linarith

/-- `test_number` at `c = 16`: escapes on the first pass with count `1 - log 4`. -/
lemma test_number_at_sixteen :
    test_number 16 2048 = some (1 - Real.log (Real.logb 2 16)) := by
  have h := test_number_escape_first 16 2048 (by norm_num) (by rw [Complex.abs_ofNat])
  rwa [Complex.abs_ofNat] at h

/-- `test_number` at `c = 65536`: escapes on the first pass. -/
lemma test_number_at_65536 :
    test_number 65536 2048 = some (1 - Real.log (Real.logb 2 65536)) := by
  have h := test_number_escape_first 65536 2048 (by norm_num)
    (by rw [Complex.abs_ofNat]; norm_num)
  rwa [Complex.abs_ofNat] at h

/-! ### Claims -/

/-- C7: `test_number` at the origin `c = 0` with budget `N = 2048` returns
`Bounded` (`None`), and `color_palette` applied to `Bounded` returns pure black
with full alpha (`B = G = R = 0`, `A = 255`) for every budget `n` — the code's
single palette strategy maps `None` to `Bgra([0, 0, 0, 255])` unconditionally. -/
theorem c7_bounded_point_stability :
    test_number 0 2048 = none ∧ ∀ n : ℕ, color_palette none n = ⟨0, 0, 0, 255⟩ :=
  ⟨testGo_zero_none 2048 0, fun _ => rfl⟩

/-- C8: for the view state `width = height = 1`, `center = (-0.5, 0)`,
`scale = 4`, the generated buffer is the single pixel
`color_palette (test_number (xy_to_point 0 0) 2048) 2048` — the render pipeline
is exactly the composition of its three parts. -/
theorem c8_end_to_end :
    (ViewState.mk (cplx (-0.5) 0) 4 1 1).generate =
      [[color_palette
          (test_number ((ViewState.mk (cplx (-0.5) 0) 4 1 1).xy_to_point 0 0) 2048)
          2048]] := by
  simp [ViewState.generate, NUM_COLORS, List.range_succ]

/-- C9: a `MouseRelease` processed while `panning` is `None` leaves the whole
application state unchanged: view state, cursor, and stored image buffer
(no re-render happens). -/
theorem c9_release_without_anchor_noop (s : AppState) (h : s.panning = none) :
    s.update .MouseRelease = s := by
  cases s with
  | mk vs img cur pan =>
    cases pan with
    | none => rfl
    | some p => simp at h

theorem c9_release_without_anchor_noop_witness :
    AppState.update ⟨⟨cplx (-0.5) 0, 4, 10, 10⟩, [], (0, 0), none⟩ .MouseRelease =
      ⟨⟨cplx (-0.5) 0, 4, 10, 10⟩, [], (0, 0), none⟩ :=
  c9_release_without_anchor_noop _ rfl

/-- C3 (evidence of the divergence): a `WindowResize` event carrying
`width = height = 0` is stored verbatim in the view state — no clamping to
`1 × 1` and no failure path exists (`update` is a total function), contrary to
the claim that zero dimensions are never stored.  A subsequent `MouseScroll`
then evaluates `xy_to_point`, which divides by `max(width, height) = 0`
(NaN/garbage in the `f64` source). -/
theorem c3_zero_resize_is_stored :
    ((AppState.update ⟨⟨cplx (-0.5) 0, 4, 10, 10⟩, [], (0, 0), none⟩
        (.WindowResize 0 0)).view_state.width = 0) ∧
    ((AppState.update ⟨⟨cplx (-0.5) 0, 4, 10, 10⟩, [], (0, 0), none⟩
        (.WindowResize 0 0)).view_state.height = 0) :=
  ⟨rfl, rfl⟩

/-- C1 (counterexample): at `c = 65536` the very first iterate is
`z₁ = 65536`, which escapes (`k = 0`), and the code returns the count
`1 - ln(log₂ |z|)` — the natural log of the base-2 log — which differs from the
claimed `1 - log₂(ln |z|)`: `z.norm().log2().ln()` applies `log2` first and
`ln` second, the reverse of the spec's order. -/
theorem c1_counterexample :
    zIter 65536 1 = 65536 ∧
    test_number 65536 2048 = some (1 - Real.log (Real.logb 2 65536)) ∧
    (1 - Real.log (Real.logb 2 65536) : ℝ) ≠ 1 - Real.logb 2 (Real.log 65536) := by
  refine ⟨by simp [zIter], test_number_at_65536, ?_⟩
  have hL1 : (0.6931471803 : ℝ) < Real.log 2 := Real.log_two_gt_d9
  have hL2 : Real.log 2 < 0.6931471808 := Real.log_two_lt_d9
  have hpos : 0 < Real.log 2 := by linarith
  have hinv : 1 / Real.log 2 < 1.45 := (div_lt_iff₀ hpos).mpr (by nlinarith)
  have hM_low : (-0.45 : ℝ) < Real.log (Real.log 2) := by
    have h1 := log_log_two_lower
    rw [← one_div] at h1
    linarith
  rw [logb_two_65536, log_65536]
  intro heq
  have heq2 : 4 * Real.log 2 = Real.logb 2 (16 * Real.log 2) := by
    rw [← log_sixteen]
    linarith
  rw [Real.logb, Real.log_mul (by norm_num) (ne_of_gt hpos), log_sixteen] at heq2
  have heq3 : 4 * Real.log 2 * Real.log 2 =
      4 * Real.log 2 + Real.log (Real.log 2) := by
    field_simp at heq2
    linarith
  have hq : 0 ≤ (0.6931471808 - Real.log 2) * (Real.log 2 - 0.6931471803) :=
    mul_nonneg (by linarith) (by linarith)
  nlinarith [hq, heq3, hM_low]

/-- C1 (amended): for every point `c` whose orbit first reaches norm `≥ 16`
after iteration `k` (0-based) within the budget, `test_number` returns
`Escaped` with smoothed count exactly `k + 1 - ln(log₂ |z|)` — the natural
logarithm of the base-2 logarithm of the norm, in that order (the reverse of
the spec's formula). -/
theorem c1_amended_escape_formula (c : ℂ) (n k : ℕ) (hk : k < n)
    (hesc : 16 ≤ Complex.abs (zIter c (k + 1)))
    (hmin : ∀ j, j < k → Complex.abs (zIter c (j + 1)) < 16) :
    test_number c n =
      some ((k : ℝ) + 1 - Real.log (Real.logb 2 (Complex.abs (zIter c (k + 1))))) := by
  have h := testGo_escape_at c k hesc n 0 (by omega) (by omega)
    (fun j _ hj => hmin j hj)
  exact h

theorem c1_amended_escape_formula_witness :
    test_number 65536 2048 =
      some ((0 : ℝ) + 1 - Real.log (Real.logb 2 (Complex.abs (zIter 65536 1)))) := by
  have h := c1_amended_escape_formula 65536 2048 0 (by norm_num)
    (by rw [show zIter (65536 : ℂ) 1 = 65536 by simp [zIter], Complex.abs_ofNat]
        norm_num)
    (fun j hj => absurd hj (Nat.not_lt_zero j))
  simpa using h

/-- C2 (counterexample): `c = 16` escapes on the first pass and the returned
smoothed count is `1 - ln 4 < 0` — the count is not a non-negative real. -/
theorem c2_counterexample :
    test_number 16 2048 = some (1 - Real.log (Real.logb 2 16)) ∧
    (1 - Real.log (Real.logb 2 16) : ℝ) < 0 := by
  refine ⟨test_number_at_sixteen, ?_⟩
  rw [logb_two_sixteen]
  have h4 : Real.log 4 = 2 * Real.log 2 := by
    rw [show (4 : ℝ) = 2 ^ (2 : ℕ) by norm_num, Real.log_pow]
    norm_num
  rw [h4]
  have := Real.log_two_gt_d9
  linarith

/-- C2 (amended): whenever `test_number` returns `Escaped(count)`, `count` is
the real number `k + 1 - ln(log₂ |z_{k+1}|)` for the escaping iteration
`k < N`; it is a well-defined real but may be negative (for points escaping
immediately with a large norm). -/
theorem c2_amended_escaped_count_form (c : ℂ) (n : ℕ) (v : ℝ)
    (h : test_number c n = some v) :
    ∃ k, k < n ∧ 16 ≤ Complex.abs (zIter c (k + 1)) ∧
      v = (k : ℝ) + 1 - Real.log (Real.logb 2 (Complex.abs (zIter c (k + 1)))) := by
  obtain ⟨k, _, hk2, hk3, hk4⟩ := testGo_some c n 0 v h
  exact ⟨k, by omega, hk3, hk4⟩

theorem c2_amended_escaped_count_form_witness :
    ∃ k, k < 2048 ∧ 16 ≤ Complex.abs (zIter 16 (k + 1)) ∧
      (1 - Real.log (Real.logb 2 16) : ℝ) =
        (k : ℝ) + 1 - Real.log (Real.logb 2 (Complex.abs (zIter 16 (k + 1)))) :=
  c2_amended_escaped_count_form 16 2048 _ test_number_at_sixteen

/-- C4: after a `MouseScroll{delta}` event the plane point that was under the
cursor's pixel before the event is still the point under that pixel of the
post-event state (exactly, in the real-number model — hence within
floating-point tolerance), and the new scale is the old scale divided by
`factor = exp(delta)`. -/
theorem c4_zoom_anchor (s : AppState) (delta : ℝ)
    (hw : 0 < s.view_state.width) (hh : 0 < s.view_state.height)
    (hs : 0 < s.view_state.scale) :
    (s.update (.MouseScroll delta)).view_state.xy_to_point
        (f32_as_u32 s.cursor.1) (f32_as_u32 s.cursor.2) =
      s.view_state.xy_to_point (f32_as_u32 s.cursor.1) (f32_as_u32 s.cursor.2) ∧
    (s.update (.MouseScroll delta)).view_state.scale =
      s.view_state.scale / Real.exp delta := by
  constructor
  · simp only [AppState.update, ViewState.xy_to_point]
    apply Complex.ext <;> simp <;> ring
  · rfl

theorem c4_zoom_anchor_witness :
    ((AppState.update ⟨⟨cplx (-0.5) 0, 4, 10, 10⟩, [], (2.5, 7), none⟩
        (.MouseScroll 1)).view_state.xy_to_point
        (f32_as_u32 (2.5 : ℝ)) (f32_as_u32 (7 : ℝ)) =
      (⟨cplx (-0.5) 0, 4, 10, 10⟩ : ViewState).xy_to_point
        (f32_as_u32 (2.5 : ℝ)) (f32_as_u32 (7 : ℝ))) ∧
    (AppState.update ⟨⟨cplx (-0.5) 0, 4, 10, 10⟩, [], (2.5, 7), none⟩
        (.MouseScroll 1)).view_state.scale = 4 / Real.exp 1 :=
  c4_zoom_anchor ⟨⟨cplx (-0.5) 0, 4, 10, 10⟩, [], (2.5, 7), none⟩ 1
    (by norm_num) (by norm_num) (by norm_num)

/-- C5: after press at pixel `p1`, move to pixel `p2`, release, the plane point
previously under `p1` is exactly under `p2` (the real-number model makes the
tolerance exact), and when `p1 = p2` the view state is unchanged. -/
theorem c5_pan_invariant (s : AppState) (p1x p1y p2x p2y : ℕ)
    (hw : 0 < s.view_state.width) (hh : 0 < s.view_state.height)
    (hc : s.cursor = ((p1x : ℝ), (p1y : ℝ))) :
    (((s.update .MousePress).update
        (.MouseMove (p2x : ℝ) (p2y : ℝ))).update .MouseRelease).view_state.xy_to_point
        p2x p2y =
      s.view_state.xy_to_point p1x p1y ∧
    (p1x = p2x → p1y = p2y →
      (((s.update .MousePress).update
          (.MouseMove (p2x : ℝ) (p2y : ℝ))).update .MouseRelease).view_state =
        s.view_state) := by
  obtain ⟨vs, img, cur, pan⟩ := s
  simp only at hc
  subst hc
  constructor
  · simp only [AppState.update, ViewState.xy_to_point]
    apply Complex.ext <;> simp <;> ring
  · intro h1 h2
    subst h1
    subst h2
    simp only [AppState.update]
    ext <;> simp

theorem c5_pan_invariant_witness :
    ((((⟨⟨cplx (-0.5) 0, 4, 10, 10⟩, [], (((3 : ℕ) : ℝ), ((4 : ℕ) : ℝ)), none⟩ :
          AppState).update .MousePress).update
        (.MouseMove ((5 : ℕ) : ℝ) ((6 : ℕ) : ℝ))).update
          .MouseRelease).view_state.xy_to_point 5 6 =
      (⟨cplx (-0.5) 0, 4, 10, 10⟩ : ViewState).xy_to_point 3 4 ∧
    ((3 : ℕ) = 5 → (4 : ℕ) = 6 →
      ((((⟨⟨cplx (-0.5) 0, 4, 10, 10⟩, [], (((3 : ℕ) : ℝ), ((4 : ℕ) : ℝ)), none⟩ :
            AppState).update .MousePress).update
          (.MouseMove ((5 : ℕ) : ℝ) ((6 : ℕ) : ℝ))).update
            .MouseRelease).view_state =
        (⟨cplx (-0.5) 0, 4, 10, 10⟩ : ViewState)) :=
  c5_pan_invariant _ 3 4 5 6 (by norm_num) (by norm_num) rfl

/-- C6 (counterexample): for the `1 × 1` view state with `center = 0` and
`scale = 4`, the pixel `(width / 2, height / 2) = (0, 0)` maps to `(-2, 2)`,
not to the center — integer division puts the sampled pixel half a pixel off
for odd dimensions, an error of `scale / 2` here, far beyond floating-point
tolerance. -/
theorem c6_counterexample :
    (ViewState.mk (cplx 0 0) 4 1 1).xy_to_point
        ((ViewState.mk (cplx 0 0) 4 1 1).width / 2)
        ((ViewState.mk (cplx 0 0) 4 1 1).height / 2) ≠
      (ViewState.mk (cplx 0 0) 4 1 1).center := by
  intro h
  have hre := congrArg Complex.re h
  simp [ViewState.xy_to_point] at hre
  norm_num at hre

/-- C6 (amended): for every view state with positive scale and positive *even*
width and height, `xy_to_point` at the pixel `(width / 2, height / 2)` returns
exactly the center; for odd dimensions the result is offset by half a pixel
(`scale / (2 · max(width, height))` on each odd axis). -/
theorem c6_amended_center_invariance (s : ViewState)
    (hw : s.width % 2 = 0) (hh : s.height % 2 = 0) (hs : 0 < s.scale) :
    s.xy_to_point (s.width / 2) (s.height / 2) = s.center := by
  obtain ⟨a, ha⟩ : ∃ a, s.width = 2 * a := ⟨s.width / 2, by omega⟩
  obtain ⟨b, hb⟩ : ∃ b, s.height = 2 * b := ⟨s.height / 2, by omega⟩
  simp only [ViewState.xy_to_point, ha, hb]
  rw [show 2 * a / 2 = a by omega, show 2 * b / 2 = b by omega]
  apply Complex.ext <;>
    simp only [Complex.add_re, Complex.add_im, cplx_re, cplx_im] <;>
    push_cast <;> ring

theorem c6_amended_center_invariance_witness :
    (ViewState.mk (cplx 1 2) 4 2 2).xy_to_point 1 1 = cplx 1 2 :=
  c6_amended_center_invariance ⟨cplx 1 2, 4, 2, 2⟩ rfl rfl (by norm_num)

/-- C10: when a `MouseScroll` is processed, the `f32` cursor coordinates are
converted with Rust `as u32` semantics — truncation of the fractional part,
negative inputs saturating to `0` — and the zoom anchor is `xy_to_point` of
that truncated integer pixel: the post-event center is
`p + (center - p) / exp delta` with `p` the truncated-pixel plane point. -/
theorem c10_scroll_truncates_cursor (s : AppState) (delta x y : ℝ) (n : ℕ)
    (hx : x < 0) (hn1 : (n : ℝ) ≤ y) (hn2 : y < (n : ℝ) + 1) (hn3 : n < 2 ^ 32) :
    f32_as_u32 x = 0 ∧ f32_as_u32 y = n ∧
    (s.update (.MouseScroll delta)).view_state.center =
      s.view_state.xy_to_point (f32_as_u32 s.cursor.1) (f32_as_u32 s.cursor.2) +
        cplx
          ((s.view_state.center -
              s.view_state.xy_to_point (f32_as_u32 s.cursor.1)
                (f32_as_u32 s.cursor.2)).re / Real.exp delta)
          ((s.view_state.center -
              s.view_state.xy_to_point (f32_as_u32 s.cursor.1)
                (f32_as_u32 s.cursor.2)).im / Real.exp delta) := by
  refine ⟨?_, ?_, rfl⟩
  · unfold f32_as_u32
    rw [Nat.floor_of_nonpos hx.le]
    simp
  · unfold f32_as_u32
    have hy0 : (0 : ℝ) ≤ y := le_trans (Nat.cast_nonneg n) hn1
    rw [(Nat.floor_eq_iff hy0).2 ⟨hn1, hn2⟩]
    exact min_eq_right (by omega)

theorem c10_scroll_truncates_cursor_witness :
    f32_as_u32 (-1 : ℝ) = 0 ∧ f32_as_u32 (2.5 : ℝ) = 2 ∧
    (AppState.update ⟨⟨cplx (-0.5) 0, 4, 10, 10⟩, [], (2.5, 7), none⟩
        (.MouseScroll 1)).view_state.center =
      (⟨cplx (-0.5) 0, 4, 10, 10⟩ : ViewState).xy_to_point
          (f32_as_u32 (2.5 : ℝ)) (f32_as_u32 (7 : ℝ)) +
        cplx
          ((cplx (-0.5) 0 -
              (⟨cplx (-0.5) 0, 4, 10, 10⟩ : ViewState).xy_to_point
                (f32_as_u32 (2.5 : ℝ)) (f32_as_u32 (7 : ℝ))).re / Real.exp 1)
          ((cplx (-0.5) 0 -
              (⟨cplx (-0.5) 0, 4, 10, 10⟩ : ViewState).xy_to_point
                (f32_as_u32 (2.5 : ℝ)) (f32_as_u32 (7 : ℝ))).im / Real.exp 1) :=
  c10_scroll_truncates_cursor ⟨⟨cplx (-0.5) 0, 4, 10, 10⟩, [], (2.5, 7), none⟩
    1 (-1) 2.5 2 (by norm_num) (by norm_num) (by norm_num) (by norm_num)

end Fractals
